import Mathlib

/-!
Verification of the DFA engine and builder of the DFA-Simulation-Tool
repository.

The repository ships three GUI modules (dfa_builder.py, dfa_visualizer.py,
interactive_debugger.py) that all import the core automaton module named dfa
(the DFA class, is_accepted, trace_execution, import_dfa_from_json,
export_dfa_to_json). That core module is not among the repository files
available here, so the engine and codec are modelled from the specification:
every such definition carries a doc comment starting with the words
Modelled from the spec. The builder dialog state operations, whose code is
available in dfa_builder.py, are translated from that source directly.

Strings play the role of both state labels and alphabet symbols, as in the
source, and an input is a list of symbols (the Python code iterates over the
characters of the input string, each character being a one-character
symbol).
-/

namespace DFASim

/-- Modelled from the spec: the missing dfa module's DFA value, a 5-tuple of
states, alphabet, transitions, start state and final states (spec section 3).
The Python class stores states, alphabet and final states as sets and
transitions as a dict keyed by (state, symbol) pairs; here a set is a list
read up to membership and the dict is an association list read through
transLookup. -/
structure DFA where
  states : List String
  alphabet : List String
  transitions : List ((String × String) × String)
  start_state : String
  final_states : List String
deriving DecidableEq

/-- Modelled from the spec: the missing dfa module's run-time error family
(spec section 7). InvalidSymbol carries the offending input symbol,
UndefinedTransition the state and symbol of the missing pair. -/
inductive ExecutionError where
  | InvalidSymbol (symbol : String) : ExecutionError
  | UndefinedTransition (state symbol : String) : ExecutionError
deriving DecidableEq

/-- Equality of Except values is decidable when both components have
decidable equality; used to evaluate engine results on concrete inputs. -/
instance {ε α : Type} [DecidableEq ε] [DecidableEq α] : DecidableEq (Except ε α) := fun a b =>
  match a, b with
  | .ok x, .ok y =>
    if h : x = y then .isTrue (congrArg Except.ok h)
    else .isFalse (fun hc => h (Except.ok.inj hc))
  | .error x, .error y =>
    if h : x = y then .isTrue (congrArg Except.error h)
    else .isFalse (fun hc => h (Except.error.inj hc))
  | .ok _, .error _ => .isFalse (fun hc => Except.noConfusion hc)
  | .error _, .ok _ => .isFalse (fun hc => Except.noConfusion hc)

/-- Lookup in an association list keyed by (state, symbol) pairs: the Lean
reading of the Python dict access transitions[(state, symbol)]. -/
def transLookup (l : List ((String × String) × String)) (s a : String) : Option String :=
  match l with
  | [] => none
  | kv :: rest => if kv.1 = (s, a) then some kv.2 else transLookup rest s a

/-- Whether a state is accepting: membership in final_states, as a Bool. -/
def isFinal (d : DFA) (s : String) : Bool :=
  Decidable.decide (s ∈ d.final_states)

/-- Modelled from the spec: the single-step execution loop of the missing dfa
module (spec section 4.2). From state s with the given remaining input:
empty input is terminal and yields s; otherwise the head symbol must be in
the alphabet (else InvalidSymbol) and the pair (s, symbol) must have a
transition (else UndefinedTransition). -/
def runFrom (d : DFA) (s : String) : List String → Except ExecutionError String
  | [] => .ok s
  | a :: rest =>
    if a ∈ d.alphabet then
      match transLookup d.transitions s a with
      | some t => runFrom d t rest
      | none => .error (.UndefinedTransition s a)
    else .error (.InvalidSymbol a)

/-- Modelled from the spec: the missing dfa module's acceptance decision,
named is_accepted in the Python imports and decide in the spec (spec section
4.2). It drives the state machine from the start state and maps the terminal
state to a Bool, propagating any ExecutionError unchanged. -/
def decide (d : DFA) (input : List String) : Except ExecutionError Bool :=
  match runFrom d d.start_state input with
  | .ok s => .ok (isFinal d s)
  | .error e => .error e

/-- Modelled from the spec: one record of the step trace produced by the
missing dfa module's trace_execution. The field names follow the dictionary
keys the GUI callers read (current_state, symbol, next_state, step_number,
processed_input, remaining_input, is_final_step, accepted). symbol is none on
the initial and terminal records, next_state is none there as well, and
accepted is some value only on the terminal record. -/
structure Step where
  step_number : Nat
  symbol : Option String
  current_state : String
  next_state : Option String
  processed_input : List String
  remaining_input : List String
  is_final_step : Bool
  accepted : Option Bool
deriving DecidableEq

/-- Modelled from the spec: the recursive worker behind trace, materializing
one record per machine transition plus the trailing terminal record. n is
the number the next transition record would carry; processed is the prefix
consumed so far. -/
def traceFrom (d : DFA) (s : String) (processed : List String) :
    List String → Nat → Except ExecutionError (List Step)
  | [], n =>
    .ok [{ step_number := n, symbol := none, current_state := s, next_state := none,
           processed_input := processed, remaining_input := [], is_final_step := true,
           accepted := some (isFinal d s) }]
  | a :: rest, n =>
    if a ∈ d.alphabet then
      match transLookup d.transitions s a with
      | some t =>
        match traceFrom d t (processed ++ [a]) rest (n + 1) with
        | .ok steps =>
          .ok ({ step_number := n, symbol := some a, current_state := s,
                 next_state := some t, processed_input := processed ++ [a],
                 remaining_input := rest, is_final_step := false,
                 accepted := none } :: steps)
        | .error e => .error e
      | none => .error (.UndefinedTransition s a)
    else .error (.InvalidSymbol a)

/-- Modelled from the spec: the missing dfa module's trace_execution (spec
section 4.2): a leading initial record numbered 0 carrying no consumed
symbol, one record per transition numbered 1 onward, and a trailing terminal
record; a failed run yields the same ExecutionError as decide. -/
def trace (d : DFA) (input : List String) : Except ExecutionError (List Step) :=
  match traceFrom d d.start_state [] input 1 with
  | .ok steps =>
    .ok ({ step_number := 0, symbol := none, current_state := d.start_state,
           next_state := none, processed_input := [], remaining_input := input,
           is_final_step := false, accepted := none } :: steps)
  | .error e => .error e

/-- The DFA of spec scenario A: accepts binary strings with an even count of
ones. -/
def dfaA : DFA :=
  { states := ["q0", "q1"], alphabet := ["0", "1"],
    transitions := [(("q0", "0"), "q0"), (("q0", "1"), "q1"),
                    (("q1", "0"), "q1"), (("q1", "1"), "q0")],
    start_state := "q0", final_states := ["q0"] }

/-- The DFA of spec scenario C: scenario A with the (q1, 1) transition
omitted, leaving the transition map partial. -/
def dfaC : DFA :=
  { states := ["q0", "q1"], alphabet := ["0", "1"],
    transitions := [(("q0", "0"), "q0"), (("q0", "1"), "q1"),
                    (("q1", "0"), "q1")],
    start_state := "q0", final_states := ["q0"] }

example : decide dfaA ["1", "1"] = .ok true := by decide
example : decide dfaA ["1"] = .ok false := by decide
example : decide dfaA [] = .ok true := by decide
example : decide dfaC ["1", "1"] = .error (.UndefinedTransition "q1" "1") := by decide

/-- Modelled from the spec: the error-kind taxonomy of the missing dfa
module's construction validator (spec section 4.1). MalformedDocument is the
extra kind decode reports for structurally invalid interchange text; it is
below the level of the typed Document value and is never produced here. -/
inductive ConstructionErrorKind where
  | MissingStartState : ConstructionErrorKind
  | FinalStateNotInStates : ConstructionErrorKind
  | TransitionStateUnknown : ConstructionErrorKind
  | TransitionSymbolUnknown : ConstructionErrorKind
  | TransitionTargetUnknown : ConstructionErrorKind
  | EmptyStates : ConstructionErrorKind
  | EmptyAlphabet : ConstructionErrorKind
  | MalformedDocument : ConstructionErrorKind
deriving DecidableEq

/-- The structural invariants I1 to I5 of spec section 3, as one predicate
over the five components of a prospective DFA: the start state is a state,
final states are states, every transition key uses a known state and a known
alphabet symbol, every transition target is a state, and states and alphabet
are non-empty. -/
def invariantsHold (states alphabet : List String)
    (transitions : List ((String × String) × String))
    (start : String) (finals : List String) : Prop :=
  start ∈ states ∧
  (∀ x ∈ finals, x ∈ states) ∧
  (∀ kv ∈ transitions, kv.1.1 ∈ states) ∧
  (∀ kv ∈ transitions, kv.1.2 ∈ alphabet) ∧
  (∀ kv ∈ transitions, kv.2 ∈ states) ∧
  states ≠ [] ∧ alphabet ≠ []

instance invariantsHold.dec (states alphabet : List String)
    (transitions : List ((String × String) × String))
    (start : String) (finals : List String) :
    Decidable (invariantsHold states alphabet transitions start finals) := by
  unfold invariantsHold; infer_instance

/-- Modelled from the spec: the exhaustive list of violated error kinds that
the missing dfa module's validator collects (spec sections 4.1 and 8), one
kind per violated check, in a fixed order. -/
def violations (states alphabet : List String)
    (transitions : List ((String × String) × String))
    (start : String) (finals : List String) : List ConstructionErrorKind :=
  (if states = [] then [.EmptyStates] else []) ++
  (if alphabet = [] then [.EmptyAlphabet] else []) ++
  (if start ∈ states then [] else [.MissingStartState]) ++
  (if ∀ x ∈ finals, x ∈ states then [] else [.FinalStateNotInStates]) ++
  (if ∀ kv ∈ transitions, kv.1.1 ∈ states then [] else [.TransitionStateUnknown]) ++
  (if ∀ kv ∈ transitions, kv.1.2 ∈ alphabet then [] else [.TransitionSymbolUnknown]) ++
  (if ∀ kv ∈ transitions, kv.2 ∈ states then [] else [.TransitionTargetUnknown])

/-- Modelled from the spec: the missing dfa module's validating constructor
(spec section 4.1). It succeeds exactly when no check is violated and
otherwise fails with the full list of violated kinds. -/
def construct (states alphabet : List String)
    (transitions : List ((String × String) × String))
    (start : String) (finals : List String) : Except (List ConstructionErrorKind) DFA :=
  if violations states alphabet transitions start finals = [] then
    .ok { states := states, alphabet := alphabet, transitions := transitions,
          start_state := start, final_states := finals }
  else
    .error (violations states alphabet transitions start finals)

/-- Modelled from the spec: a valid DFA value as produced by the missing dfa
module's constructor: the invariants I1 to I5 hold, the three set components
carry no duplicate (they are Python sets), and the transition dict has no
duplicate key. -/
def Valid (d : DFA) : Prop :=
  invariantsHold d.states d.alphabet d.transitions d.start_state d.final_states ∧
  d.states.Nodup ∧ d.alphabet.Nodup ∧ d.final_states.Nodup ∧
  (d.transitions.map Prod.fst).Nodup

instance Valid.dec (d : DFA) : Decidable (Valid d) := by
  unfold Valid; infer_instance

/-- Modelled from the spec: one record of the interchange document's
transitions list (spec section 6), an explicit from-symbol-to triple. -/
structure TransitionRecord where
  fromState : String
  symbol : String
  toState : String
deriving DecidableEq

/-- Modelled from the spec: the interchange document of spec section 6, the
typed shape of the JSON text that export_dfa_to_json writes and
import_dfa_from_json reads. -/
structure Document where
  states : List String
  alphabet : List String
  transitions : List TransitionRecord
  start_state : String
  final_states : List String
deriving DecidableEq

/-- Modelled from the spec: the missing dfa module's export_dfa_to_json,
restricted to the document it serializes (spec section 4.3): all five
components written explicitly, the transition dict flattened to a list of
from-symbol-to records. -/
def encode (d : DFA) : Document :=
  { states := d.states, alphabet := d.alphabet,
    transitions := d.transitions.map (fun kv => { fromState := kv.1.1, symbol := kv.1.2, toState := kv.2 }),
    start_state := d.start_state, final_states := d.final_states }

/-- Modelled from the spec: the missing dfa module's import_dfa_from_json,
from the typed document on (spec section 4.3): the transition records are
rebuilt into the pair-keyed map and the same validation as construct runs. -/
def decode (doc : Document) : Except (List ConstructionErrorKind) DFA :=
  construct doc.states doc.alphabet
    (doc.transitions.map (fun r => ((r.fromState, r.symbol), r.toState)))
    doc.start_state doc.final_states

/-- Spec section 4.3 equality of DFAs: set equality of states, alphabet and
final states, map equality of transitions, value equality of the start
state. -/
def DFAEquiv (d1 d2 : DFA) : Prop :=
  (∀ x, x ∈ d1.states ↔ x ∈ d2.states) ∧
  (∀ x, x ∈ d1.alphabet ↔ x ∈ d2.alphabet) ∧
  (∀ s a, transLookup d1.transitions s a = transLookup d2.transitions s a) ∧
  d1.start_state = d2.start_state ∧
  (∀ x, x ∈ d1.final_states ↔ x ∈ d2.final_states)

/-- Component-wise permutation of interchange documents: same content up to
the order of the states, alphabet, transitions and final-states lists. -/
def DocPerm (doc1 doc2 : Document) : Prop :=
  doc1.states.Perm doc2.states ∧
  doc1.alphabet.Perm doc2.alphabet ∧
  doc1.transitions.Perm doc2.transitions ∧
  doc1.start_state = doc2.start_state ∧
  doc1.final_states.Perm doc2.final_states

/-- Lexicographic order on (state, symbol) pairs, the order of the sorted
sequence missingTransitions returns. -/
def pairLe (p q : String × String) : Prop :=
  p.1 < q.1 ∨ (p.1 = q.1 ∧ p.2 ≤ q.2)

instance pairLe.dec : DecidableRel pairLe := by
  intro p q; unfold pairLe; infer_instance

instance pairLe.total : IsTotal (String × String) pairLe := by
  constructor
  intro p q
  rcases lt_trichotomy p.1 q.1 with h | h | h
  · exact Or.inl (Or.inl h)
  · rcases le_total p.2 q.2 with h2 | h2
    · exact Or.inl (Or.inr ⟨h, h2⟩)
    · exact Or.inr (Or.inr ⟨h.symm, h2⟩)
  · exact Or.inr (Or.inl h)

instance pairLe.trans : IsTrans (String × String) pairLe := by
  constructor
  intro p q r hpq hqr
  rcases hpq with h1 | ⟨h1, h1b⟩ <;> rcases hqr with h2 | ⟨h2, h2b⟩
  · exact Or.inl (lt_trans h1 h2)
  · exact Or.inl (h2 ▸ h1)
  · exact Or.inl (h1 ▸ h2)
  · exact Or.inr ⟨h1.trans h2, le_trans h1b h2b⟩

/-- Modelled from the spec: the missing dfa module's advisory completeness
inspection (spec section 4.1): the pairs of the cartesian product of states
and alphabet that have no defined transition, in lexicographic order. The
builder recomputes the same set inline before export (dfa_builder.py lines
687 to 715 and 814 to 831). -/
def missingTransitions (d : DFA) : List (String × String) :=
  List.insertionSort pairLe
    ((d.states.flatMap (fun s => d.alphabet.map (fun a => (s, a)))).filter
      (fun p => transLookup d.transitions p.1 p.2 = none))

example : missingTransitions dfaC = [("q1", "1")] := by decide
example : missingTransitions dfaA = [] := by decide

/-- The model-facing state of DFABuilderDialog (dfa_builder.py lines 111 to
115): the in-progress states, alphabet, transitions, start state and final
states, without the widget mirrors. states, alphabet and final_states are
Python lists; transitions is a dict keyed by (state, symbol) pairs, read
here as an association list whose keys the operations keep unique. -/
structure BuilderState where
  states : List String
  alphabet : List String
  transitions : List ((String × String) × String)
  start_state : Option String
  final_states : List String
deriving DecidableEq

/-- The fresh dialog state built in the constructor (dfa_builder.py lines
111 to 115): all components empty, no start state. -/
def initBuilder : BuilderState :=
  { states := [], alphabet := [], transitions := [], start_state := none,
    final_states := [] }

/-- add_state (dfa_builder.py lines 417 to 433): the entered text is
stripped; an empty result or a name already present is refused, otherwise
the name is appended to states. -/
def add_state (b : BuilderState) (raw : String) : BuilderState :=
  let state := raw.trim
  if state = "" then b
  else if state ∈ b.states then b
  else { b with states := b.states ++ [state] }

/-- remove_state (dfa_builder.py lines 435 to 452): the selected state is
removed from states (first occurrence, as Python list.remove), and every
transition whose key has it as first component is deleted; transitions from
other states are kept even when their target is the removed state. -/
def remove_state (b : BuilderState) (state : String) : BuilderState :=
  { b with states := b.states.erase state,
           transitions := b.transitions.filter (fun kv => kv.1.1 != state) }

/-- add_symbol (dfa_builder.py lines 454 to 470): like add_state, on the
alphabet list. -/
def add_symbol (b : BuilderState) (raw : String) : BuilderState :=
  let symbol := raw.trim
  if symbol = "" then b
  else if symbol ∈ b.alphabet then b
  else { b with alphabet := b.alphabet ++ [symbol] }

/-- remove_symbol (dfa_builder.py lines 472 to 489): the selected symbol is
removed from the alphabet and every transition whose key has it as second
component is deleted. -/
def remove_symbol (b : BuilderState) (symbol : String) : BuilderState :=
  { b with alphabet := b.alphabet.erase symbol,
           transitions := b.transitions.filter (fun kv => kv.1.2 != symbol) }

/-- Assignment into the transitions dict (the Python statement writing
transitions[key] = value): the value of an existing key is replaced in
place, a new key is appended at the end, matching dict update semantics. -/
def dictInsert (l : List ((String × String) × String)) (k : String × String)
    (v : String) : List ((String × String) × String) :=
  if l.any (fun kv => kv.1 == k) then
    l.map (fun kv => if kv.1 == k then (k, v) else kv)
  else l ++ [(k, v)]

/-- add_transition (dfa_builder.py lines 491 to 512): refused when any of
the three combo selections is empty; when the key already exists the user is
asked whether to overwrite, modelled by the overwrite flag; otherwise the
dict entry is written. -/
def add_transition (b : BuilderState) (fromState symbol toState : String)
    (overwrite : Bool) : BuilderState :=
  if fromState = "" ∨ symbol = "" ∨ toState = "" then b
  else if b.transitions.any (fun kv => kv.1 == (fromState, symbol)) && !overwrite then b
  else { b with transitions := dictInsert b.transitions (fromState, symbol) toState }

/-- remove_transition (dfa_builder.py lines 514 to 527): the key of the
selected table row is deleted from the dict when present. -/
def remove_transition (b : BuilderState) (k : String × String) : BuilderState :=
  { b with transitions := b.transitions.filter (fun kv => kv.1 != k) }

/-- set_start_state (dfa_builder.py lines 529 to 538): refused when the
combo selection is empty, otherwise the start state is replaced. -/
def set_start_state (b : BuilderState) (state : String) : BuilderState :=
  if state = "" then b else { b with start_state := some state }

/-- add_final_state (dfa_builder.py lines 540 to 552): refused when the
combo selection is empty or the state is already final, otherwise appended
to final_states. -/
def add_final_state (b : BuilderState) (state : String) : BuilderState :=
  if state = "" then b
  else if state ∈ b.final_states then b
  else { b with final_states := b.final_states ++ [state] }

/-- remove_final_state (dfa_builder.py lines 554 to 562): the selected state
is removed from final_states (first occurrence). -/
def remove_final_state (b : BuilderState) (state : String) : BuilderState :=
  { b with final_states := b.final_states.erase state }

/-- load_existing_dfa (dfa_builder.py lines 850 to 877): the builder lists
are repopulated from an existing DFA; states, alphabet and final states are
Python sets turned into sorted lists (so sorted over the distinct elements),
the transitions dict is copied, the start state taken over. -/
def load_existing_dfa (b : BuilderState) (dfa : DFA) : BuilderState :=
  { b with
    states := List.insertionSort (fun a c => a ≤ c) dfa.states.dedup,
    alphabet := List.insertionSort (fun a c => a ≤ c) dfa.alphabet.dedup,
    transitions := dfa.transitions,
    start_state := some dfa.start_state,
    final_states := List.insertionSort (fun a c => a ≤ c) dfa.final_states.dedup }

/-- The duplicate-freeness invariant of the builder lists. -/
def BuilderInv (b : BuilderState) : Prop :=
  b.states.Nodup ∧ b.alphabet.Nodup ∧ b.final_states.Nodup

instance BuilderInv.dec (b : BuilderState) : Decidable (BuilderInv b) := by
  unfold BuilderInv; infer_instance

/-- traceFrom fails with exactly the error the plain run fails with,
whatever the processed prefix and step counter. -/
theorem traceFrom_error_iff (d : DFA) :
    ∀ (input : List String) (s : String) (p : List String) (n : Nat) (e : ExecutionError),
      traceFrom d s p input n = .error e ↔ runFrom d s input = .error e := by
  intro input
  induction input with
  | nil =>
    intro s p n e
    simp [traceFrom, runFrom]
  | cons a rest ih =>
    intro s p n e
    by_cases ha : a ∈ d.alphabet
    · cases hl : transLookup d.transitions s a with
      | some t =>
        rw [show traceFrom d s p (a :: rest) n =
              (match traceFrom d t (p ++ [a]) rest (n + 1) with
               | .ok steps =>
                 .ok ({ step_number := n, symbol := some a, current_state := s,
                        next_state := some t, processed_input := p ++ [a],
                        remaining_input := rest, is_final_step := false,
                        accepted := none } :: steps)
               | .error e => .error e) from by simp [traceFrom, ha, hl],
            show runFrom d s (a :: rest) = runFrom d t rest from by simp [runFrom, ha, hl],
            ← ih t (p ++ [a]) (n + 1) e]
        cases htr : traceFrom d t (p ++ [a]) rest (n + 1) <;> simp [htr]
      | none =>
        simp [traceFrom, runFrom, ha, hl]
    · simp [traceFrom, runFrom, ha]

/-- When the plain run completes in state fin, traceFrom returns the
transition records followed by the terminal record: one record per consumed
symbol, none of them terminal, each carrying its consumed symbol, and the
terminal record numbered by the input length, carrying the full processed
input and the acceptance verdict of fin. -/
theorem traceFrom_ok (d : DFA) :
    ∀ (input : List String) (s : String) (p : List String) (n : Nat) (fin : String),
      runFrom d s input = .ok fin →
      ∃ mid,
        traceFrom d s p input n =
          .ok (mid ++ [{ step_number := n + input.length, symbol := none,
                         current_state := fin, next_state := none,
                         processed_input := p ++ input, remaining_input := [],
                         is_final_step := true,
                         accepted := some (isFinal d fin) }]) ∧
        mid.length = input.length ∧
        ∀ st ∈ mid, st.is_final_step = false ∧ ∃ a, st.symbol = some a := by
  intro input
  induction input with
  | nil =>
    intro s p n fin h
    simp only [runFrom, Except.ok.injEq] at h
    subst h
    exact ⟨[], by simp [traceFrom], rfl, by simp⟩
  | cons a rest ih =>
    intro s p n fin h
    by_cases ha : a ∈ d.alphabet
    · cases hl : transLookup d.transitions s a with
      | some t =>
        have h2 : runFrom d t rest = .ok fin := by
          rw [show runFrom d s (a :: rest) = runFrom d t rest from by
            simp [runFrom, ha, hl]] at h
          exact h
        obtain ⟨mid, htr, hlen, hmid⟩ := ih t (p ++ [a]) (n + 1) fin h2
        refine ⟨{ step_number := n, symbol := some a, current_state := s,
                  next_state := some t, processed_input := p ++ [a],
                  remaining_input := rest, is_final_step := false,
                  accepted := none } :: mid, ?_, ?_, ?_⟩
        · rw [show traceFrom d s p (a :: rest) n =
                (match traceFrom d t (p ++ [a]) rest (n + 1) with
                 | .ok steps =>
                   .ok ({ step_number := n, symbol := some a, current_state := s,
                          next_state := some t, processed_input := p ++ [a],
                          remaining_input := rest, is_final_step := false,
                          accepted := none } :: steps)
                 | .error e => .error e) from by simp [traceFrom, ha, hl],
              htr]
          simp only [Except.ok.injEq, List.cons_append, List.cons.injEq, true_and]
          have hnum : n + 1 + rest.length = n + (a :: rest).length := by
            simp only [List.length_cons]; omega
          have hproc : p ++ [a] ++ rest = p ++ a :: rest := by simp
          rw [hnum, hproc]
        · simp [hlen]
        · intro st hst
          rcases List.mem_cons.mp hst with h1 | h1
          · subst h1; exact ⟨rfl, a, rfl⟩
          · exact hmid st h1
      | none =>
        exfalso
        rw [show runFrom d s (a :: rest) = .error (.UndefinedTransition s a) from by
          simp [runFrom, ha, hl]] at h
        exact Except.noConfusion h
    · exfalso
      rw [show runFrom d s (a :: rest) = .error (.InvalidSymbol a) from by
        simp [runFrom, ha]] at h
      exact Except.noConfusion h

/-- A successful trace is the initial record, one transition record per
consumed symbol, and the terminal record carrying the acceptance verdict
that decide returns. -/
theorem trace_ok_struct (d : DFA) (input : List String) (steps : List Step)
    (h : trace d input = .ok steps) :
    ∃ fin mid,
      runFrom d d.start_state input = .ok fin ∧
      decide d input = .ok (isFinal d fin) ∧
      steps =
        { step_number := 0, symbol := none, current_state := d.start_state,
          next_state := none, processed_input := [], remaining_input := input,
          is_final_step := false, accepted := none } ::
        (mid ++ [{ step_number := input.length + 1, symbol := none,
                   current_state := fin, next_state := none,
                   processed_input := input, remaining_input := [],
                   is_final_step := true, accepted := some (isFinal d fin) }]) ∧
      mid.length = input.length ∧
      ∀ st ∈ mid, st.is_final_step = false ∧ ∃ a, st.symbol = some a := by
  cases hr : runFrom d d.start_state input with
  | error e =>
    exfalso
    have htr : traceFrom d d.start_state [] input 1 = .error e :=
      (traceFrom_error_iff d input d.start_state [] 1 e).mpr hr
    rw [show trace d input = .error e from by simp [trace, htr]] at h
    exact Except.noConfusion h
  | ok fin =>
    obtain ⟨mid, htr, hlen, hmid⟩ := traceFrom_ok d input d.start_state [] 1 fin hr
    rw [Nat.add_comm 1 input.length, List.nil_append] at htr
    refine ⟨fin, mid, rfl, by simp [decide, hr], ?_, hlen, hmid⟩
    rw [show trace d input =
          .ok ({ step_number := 0, symbol := none, current_state := d.start_state,
                 next_state := none, processed_input := [], remaining_input := input,
                 is_final_step := false, accepted := none } ::
               (mid ++ [{ step_number := input.length + 1, symbol := none,
                          current_state := fin, next_state := none,
                          processed_input := input, remaining_input := [],
                          is_final_step := true,
                          accepted := some (isFinal d fin) }])) from by
      simp [trace, htr]] at h
    exact (Except.ok.inj h).symm

/-- C2: for every DFA and every input on which trace succeeds, decide
returns exactly the boolean recorded in the accepted field of the trace's
terminal (last) record. -/
theorem decide_trace_agreement (d : DFA) (input : List String) (steps : List Step)
    (h : trace d input = .ok steps) :
    ∃ b, decide d input = .ok b ∧
      ∃ last, steps.getLast? = some last ∧ last.accepted = some b := by
  obtain ⟨fin, mid, hr, hd, hsteps, hlen, hmid⟩ := trace_ok_struct d input steps h
  subst hsteps
  refine ⟨isFinal d fin, hd,
    { step_number := input.length + 1, symbol := none, current_state := fin,
      next_state := none, processed_input := input, remaining_input := [],
      is_final_step := true, accepted := some (isFinal d fin) }, ?_, rfl⟩
  rw [show ({ step_number := 0, symbol := none, current_state := d.start_state,
              next_state := none, processed_input := [], remaining_input := input,
              is_final_step := false, accepted := none } ::
            (mid ++ [{ step_number := input.length + 1, symbol := none,
                       current_state := fin, next_state := none,
                       processed_input := input, remaining_input := [],
                       is_final_step := true,
                       accepted := some (isFinal d fin) }]) : List Step) =
          ({ step_number := 0, symbol := none, current_state := d.start_state,
             next_state := none, processed_input := [], remaining_input := input,
             is_final_step := false, accepted := none } :: mid) ++
            [{ step_number := input.length + 1, symbol := none,
               current_state := fin, next_state := none,
               processed_input := input, remaining_input := [],
               is_final_step := true, accepted := some (isFinal d fin) }] from by
    simp]
  exact List.getLast?_concat _

/-- C2, instantiated: on the automaton of scenario A with empty input, the
trace succeeds and decide agrees with the terminal record. -/
theorem decide_trace_agreement_witness :
    ∃ b, decide dfaA [] = .ok b ∧
      ∃ last,
        ([{ step_number := 0, symbol := none, current_state := "q0",
            next_state := none, processed_input := [], remaining_input := [],
            is_final_step := false, accepted := none },
          { step_number := 1, symbol := none, current_state := "q0",
            next_state := none, processed_input := [], remaining_input := [],
            is_final_step := true, accepted := some true }] : List Step).getLast? =
          some last ∧ last.accepted = some b :=
  decide_trace_agreement dfaA []
    [{ step_number := 0, symbol := none, current_state := "q0",
       next_state := none, processed_input := [], remaining_input := [],
       is_final_step := false, accepted := none },
     { step_number := 1, symbol := none, current_state := "q0",
       next_state := none, processed_input := [], remaining_input := [],
       is_final_step := true, accepted := some true }] (by decide)

/-- C4: a trace that completes without failure for an input of length N has
exactly N + 2 records: a leading initial record with no consumed symbol, N
transition records each carrying a consumed symbol, and a trailing record
that is the only one marked terminal; and on any DFA whose start state is
final, the empty input yields exactly 2 records whose terminal record has
accepted equal to true. -/
theorem trace_length_law :
    (∀ (d : DFA) (input : List String) (steps : List Step),
        trace d input = .ok steps →
        steps.length = input.length + 2 ∧
        (∃ first rest, steps = first :: rest ∧ first.symbol = none ∧
          first.is_final_step = false) ∧
        (∃ last, steps.getLast? = some last ∧ last.is_final_step = true) ∧
        (∀ st ∈ steps.dropLast, st.is_final_step = false) ∧
        (∀ st ∈ steps.tail.dropLast, ∃ a, st.symbol = some a)) ∧
    (∀ d : DFA, d.start_state ∈ d.final_states →
        trace d [] =
          .ok [{ step_number := 0, symbol := none, current_state := d.start_state,
                 next_state := none, processed_input := [], remaining_input := [],
                 is_final_step := false, accepted := none },
               { step_number := 1, symbol := none, current_state := d.start_state,
                 next_state := none, processed_input := [], remaining_input := [],
                 is_final_step := true, accepted := some true }]) := by
  constructor
  · intro d input steps h
    obtain ⟨fin, mid, hr, hd, hsteps, hlen, hmid⟩ := trace_ok_struct d input steps h
    subst hsteps
    refine ⟨by simp [hlen], ⟨_, _, rfl, rfl, rfl⟩, ?_, ?_, ?_⟩
    · refine ⟨{ step_number := input.length + 1, symbol := none,
                current_state := fin, next_state := none, processed_input := input,
                remaining_input := [], is_final_step := true,
                accepted := some (isFinal d fin) }, ?_, rfl⟩
      rw [show ({ step_number := 0, symbol := none, current_state := d.start_state,
                  next_state := none, processed_input := [], remaining_input := input,
                  is_final_step := false, accepted := none } ::
                (mid ++ [{ step_number := input.length + 1, symbol := none,
                           current_state := fin, next_state := none,
                           processed_input := input, remaining_input := [],
                           is_final_step := true,
                           accepted := some (isFinal d fin) }]) : List Step) =
              ({ step_number := 0, symbol := none, current_state := d.start_state,
                 next_state := none, processed_input := [], remaining_input := input,
                 is_final_step := false, accepted := none } :: mid) ++
                [{ step_number := input.length + 1, symbol := none,
                   current_state := fin, next_state := none,
                   processed_input := input, remaining_input := [],
                   is_final_step := true,
                   accepted := some (isFinal d fin) }] from by simp]
      exact List.getLast?_concat _
    · intro st hst
      rw [show ({ step_number := 0, symbol := none, current_state := d.start_state,
                  next_state := none, processed_input := [], remaining_input := input,
                  is_final_step := false, accepted := none } ::
                (mid ++ [{ step_number := input.length + 1, symbol := none,
                           current_state := fin, next_state := none,
                           processed_input := input, remaining_input := [],
                           is_final_step := true,
                           accepted := some (isFinal d fin) }]) : List Step) =
              ({ step_number := 0, symbol := none, current_state := d.start_state,
                 next_state := none, processed_input := [], remaining_input := input,
                 is_final_step := false, accepted := none } :: mid) ++
                [{ step_number := input.length + 1, symbol := none,
                   current_state := fin, next_state := none,
                   processed_input := input, remaining_input := [],
                   is_final_step := true,
                   accepted := some (isFinal d fin) }] from by simp,
          List.dropLast_concat] at hst
      rcases List.mem_cons.mp hst with h1 | h1
      · subst h1; rfl
      · exact (hmid st h1).1
    · intro st hst
      rw [List.tail_cons, List.dropLast_concat] at hst
      exact (hmid st hst).2
  · intro d hd
    have hfin : isFinal d d.start_state = true := by
      simp [isFinal, hd]
    simp [trace, traceFrom, hfin]

/-- C3: decide has three disjoint outcomes: true when the run ends in a
final state, false when it ends in a non-final state, and the run's
ExecutionError otherwise, never converted to false; trace fails with the
same error; and on the scenario C automaton (missing (q1, 1) transition)
the input 11 fails with UndefinedTransition q1 1. -/
theorem decide_three_outcomes :
    (∀ (d : DFA) (input : List String),
        (∃ s, runFrom d d.start_state input = .ok s ∧ s ∈ d.final_states ∧
          decide d input = .ok true) ∨
        (∃ s, runFrom d d.start_state input = .ok s ∧ s ∉ d.final_states ∧
          decide d input = .ok false) ∨
        (∃ e, runFrom d d.start_state input = .error e ∧
          decide d input = .error e)) ∧
    (∀ (d : DFA) (input : List String) (e : ExecutionError),
        runFrom d d.start_state input = .error e →
        decide d input ≠ .ok false ∧ decide d input = .error e ∧
          trace d input = .error e) ∧
    decide dfaC ["1", "1"] = .error (.UndefinedTransition "q1" "1") := by
  refine ⟨?_, ?_, by decide⟩
  · intro d input
    cases hr : runFrom d d.start_state input with
    | ok s =>
      by_cases hs : s ∈ d.final_states
      · exact Or.inl ⟨s, rfl, hs, by simp [decide, hr, isFinal, hs]⟩
      · exact Or.inr (Or.inl ⟨s, rfl, hs, by simp [decide, hr, isFinal, hs]⟩)
    | error e =>
      exact Or.inr (Or.inr ⟨e, rfl, by simp [decide, hr]⟩)
  · intro d input e h
    have htr : traceFrom d d.start_state [] input 1 = .error e :=
      (traceFrom_error_iff d input d.start_state [] 1 e).mpr h
    exact ⟨by simp [decide, h], by simp [decide, h], by simp [trace, htr]⟩

/-- C7: on the scenario A automaton (even number of ones), decide accepts
11, rejects 1, and accepts the empty input. -/
theorem dfaA_decisions :
    decide dfaA ["1", "1"] = .ok true ∧ decide dfaA ["1"] = .ok false ∧
      decide dfaA [] = .ok true := by
  decide

/-- C8: decide and trace are deterministic: two calls on equal DFA values
and equal inputs return equal results. -/
theorem engine_deterministic (d1 d2 : DFA) (in1 in2 : List String)
    (hd : d1 = d2) (hi : in1 = in2) :
    decide d1 in1 = decide d2 in2 ∧ trace d1 in1 = trace d2 in2 := by
  subst hd
  subst hi
  exact ⟨rfl, rfl⟩

/-- C8, instantiated at the scenario A automaton and the input 1. -/
theorem engine_deterministic_witness :
    decide dfaA ["1"] = decide dfaA ["1"] ∧ trace dfaA ["1"] = trace dfaA ["1"] :=
  engine_deterministic dfaA dfaA ["1"] ["1"] rfl rfl

/-- With duplicate-free keys, transLookup finds exactly the entries of the
association list. -/
theorem transLookup_eq_some_iff {l : List ((String × String) × String)}
    (nd : (l.map Prod.fst).Nodup) (s a t : String) :
    transLookup l s a = some t ↔ ((s, a), t) ∈ l := by
  induction l with
  | nil => simp [transLookup]
  | cons kv rest ih =>
    obtain ⟨k, v⟩ := kv
    simp only [List.map_cons, List.nodup_cons] at nd
    by_cases hk : k = (s, a)
    · subst hk
      rw [show transLookup ((((s, a), v) : (String × String) × String) :: rest) s a =
            some v from by simp [transLookup]]
      constructor
      · intro h
        refine List.mem_cons.mpr (Or.inl ?_)
        rw [Option.some.inj h]
      · intro h
        rcases List.mem_cons.mp h with h1 | h1
        · rw [(Prod.mk.inj h1).2]
        · exact absurd
            (List.mem_map.mpr ⟨(((s, a), t) : (String × String) × String), h1, rfl⟩)
            nd.1
    · rw [show transLookup (((k, v) : (String × String) × String) :: rest) s a =
            transLookup rest s a from by simp [transLookup, hk],
          ih nd.2]
      constructor
      · intro h
        exact List.mem_cons.mpr (Or.inr h)
      · intro h
        rcases List.mem_cons.mp h with h1 | h1
        · exact absurd (congrArg Prod.fst h1).symm hk
        · exact h1

/-- transLookup misses exactly the keys absent from the association list. -/
theorem transLookup_eq_none_iff (l : List ((String × String) × String)) (s a : String) :
    transLookup l s a = none ↔ (s, a) ∉ l.map Prod.fst := by
  induction l with
  | nil => simp [transLookup]
  | cons kv rest ih =>
    by_cases hk : kv.1 = (s, a)
    · simp [transLookup, hk]
    · simp only [transLookup, if_neg hk, List.map_cons, List.mem_cons, ih]
      constructor
      · intro h hmem
        rcases hmem with h1 | h1
        · exact hk h1.symm
        · exact h h1
      · intro h hmem
        exact h (Or.inr hmem)

/-- Permuting an association list with duplicate-free keys does not change
any lookup. -/
theorem transLookup_perm {l1 l2 : List ((String × String) × String)}
    (h : l1.Perm l2) (nd : (l1.map Prod.fst).Nodup) (s a : String) :
    transLookup l1 s a = transLookup l2 s a := by
  have nd2 : (l2.map Prod.fst).Nodup := ((h.map Prod.fst).nodup_iff).mp nd
  cases h2 : transLookup l2 s a with
  | some t =>
    exact (transLookup_eq_some_iff nd s a t).mpr
      (h.mem_iff.mpr ((transLookup_eq_some_iff nd2 s a t).mp h2))
  | none =>
    refine (transLookup_eq_none_iff l1 s a).mpr ?_
    intro hmem
    exact (transLookup_eq_none_iff l2 s a).mp h2 (((h.map Prod.fst).mem_iff).mp hmem)

/-- A positive check contributes nothing to the violation list exactly when
its condition fails. -/
theorem check_nil_iff {c : Prop} [Decidable c] {k : ConstructionErrorKind} :
    (if c then ([] : List ConstructionErrorKind) else [k]) = [] ↔ c := by
  by_cases h : c <;> simp [h]

/-- A negative check contributes nothing to the violation list exactly when
its condition fails. -/
theorem check_nil_iff_neg {c : Prop} [Decidable c] {k : ConstructionErrorKind} :
    (if c then [k] else ([] : List ConstructionErrorKind)) = [] ↔ ¬c := by
  by_cases h : c <;> simp [h]

/-- The violation list is empty exactly when all invariants hold. -/
theorem violations_eq_nil_iff (states alphabet : List String)
    (transitions : List ((String × String) × String))
    (start : String) (finals : List String) :
    violations states alphabet transitions start finals = [] ↔
      invariantsHold states alphabet transitions start finals := by
  unfold violations invariantsHold
  simp only [List.append_eq_nil, check_nil_iff, check_nil_iff_neg]
  tauto

/-- construct succeeds, with the DFA assembled verbatim from its arguments,
exactly when all invariants hold. -/
theorem construct_ok_iff (states alphabet : List String)
    (transitions : List ((String × String) × String))
    (start : String) (finals : List String) :
    (∃ d, construct states alphabet transitions start finals = .ok d) ↔
      invariantsHold states alphabet transitions start finals := by
  constructor
  · rintro ⟨d, hd⟩
    by_cases hv : violations states alphabet transitions start finals = []
    · exact (violations_eq_nil_iff states alphabet transitions start finals).mp hv
    · rw [show construct states alphabet transitions start finals =
            .error (violations states alphabet transitions start finals) from by
        simp [construct, hv]] at hd
      exact Except.noConfusion hd
  · intro hinv
    have hv := (violations_eq_nil_iff states alphabet transitions start finals).mpr hinv
    exact ⟨{ states := states, alphabet := alphabet, transitions := transitions,
             start_state := start, final_states := finals },
           by simp [construct, hv]⟩

/-- C1: decoding any reordering of the encoded document of a valid DFA
succeeds and yields a DFA equal to the original under set equality of
states, alphabet and final states, map equality of transitions, and value
equality of the start state; ordering in the encoded lists is
insignificant. -/
theorem decode_encode_roundtrip (d : DFA) (doc : Document)
    (hv : Valid d) (hp : DocPerm doc (encode d)) :
    ∃ d2, decode doc = .ok d2 ∧ DFAEquiv d2 d := by
  obtain ⟨hinv, ndS, ndA, ndF, ndT⟩ := hv
  obtain ⟨hps, hpa, hpt, hst, hpf⟩ := hp
  have hps2 : doc.states.Perm d.states := by simpa [encode] using hps
  have hpa2 : doc.alphabet.Perm d.alphabet := by simpa [encode] using hpa
  have hpf2 : doc.final_states.Perm d.final_states := by simpa [encode] using hpf
  have hst2 : doc.start_state = d.start_state := by simpa [encode] using hst
  have hid : ∀ l : List ((String × String) × String),
      List.map ((fun r : TransitionRecord => ((r.fromState, r.symbol), r.toState)) ∘
        fun kv : (String × String) × String =>
          ({ fromState := kv.1.1, symbol := kv.1.2, toState := kv.2 } : TransitionRecord)) l =
        l := by
    intro l
    induction l with
    | nil => rfl
    | cons kv rest ih => simp [ih]
  have hback : (encode d).transitions.map
      (fun r => ((r.fromState, r.symbol), r.toState)) = d.transitions := by
    simp only [encode, List.map_map]
    exact hid d.transitions
  have hpt2 : (doc.transitions.map
      (fun r => ((r.fromState, r.symbol), r.toState))).Perm d.transitions := by
    rw [← hback]
    exact hpt.map _
  obtain ⟨i1, i2, i3, i4, i5, i6, i7⟩ := hinv
  have hinv2 : invariantsHold doc.states doc.alphabet
      (doc.transitions.map (fun r => ((r.fromState, r.symbol), r.toState)))
      doc.start_state doc.final_states := by
    refine ⟨?_, ?_, ?_, ?_, ?_, ?_, ?_⟩
    · rw [hst2]
      exact hps2.mem_iff.mpr i1
    · intro x hx
      exact hps2.mem_iff.mpr (i2 x (hpf2.mem_iff.mp hx))
    · intro kv hkv
      exact hps2.mem_iff.mpr (i3 kv (hpt2.mem_iff.mp hkv))
    · intro kv hkv
      exact hpa2.mem_iff.mpr (i4 kv (hpt2.mem_iff.mp hkv))
    · intro kv hkv
      exact hps2.mem_iff.mpr (i5 kv (hpt2.mem_iff.mp hkv))
    · intro h
      exact i6 (by rw [h] at hps2; exact hps2.symm.eq_nil)
    · intro h
      exact i7 (by rw [h] at hpa2; exact hpa2.symm.eq_nil)
  have hvnil := (violations_eq_nil_iff doc.states doc.alphabet
    (doc.transitions.map (fun r => ((r.fromState, r.symbol), r.toState)))
    doc.start_state doc.final_states).mpr hinv2
  refine ⟨{ states := doc.states, alphabet := doc.alphabet,
            transitions := doc.transitions.map
              (fun r => ((r.fromState, r.symbol), r.toState)),
            start_state := doc.start_state, final_states := doc.final_states },
          ?_, ?_⟩
  · simp [decode, construct, hvnil]
  · refine ⟨fun x => hps2.mem_iff, fun x => hpa2.mem_iff, ?_, hst2,
            fun x => hpf2.mem_iff⟩
    intro s a
    exact transLookup_perm hpt2
      (((hpt2.map Prod.fst).nodup_iff).mpr ndT) s a

/-- C1, instantiated: round trip through the codec at the scenario A
automaton with the encoded lists in their original order. -/
theorem decode_encode_roundtrip_witness :
    ∃ d2, decode (encode dfaA) = .ok d2 ∧ DFAEquiv d2 dfaA :=
  decode_encode_roundtrip dfaA (encode dfaA) (by decide)
    ⟨List.Perm.refl _, List.Perm.refl _, List.Perm.refl _, rfl, List.Perm.refl _⟩

/-- C5: construct succeeds exactly when invariants I1 to I5 all hold, a
partial transition map notwithstanding; otherwise it fails with the full
violation list, whose kinds cover every violated invariant: I1 yields
MissingStartState, I2 FinalStateNotInStates, I3 TransitionStateUnknown or
TransitionSymbolUnknown, I4 TransitionTargetUnknown, I5 EmptyStates or
EmptyAlphabet. -/
theorem construct_validity (states alphabet : List String)
    (transitions : List ((String × String) × String))
    (start : String) (finals : List String) :
    ((∃ d, construct states alphabet transitions start finals = .ok d) ↔
      invariantsHold states alphabet transitions start finals) ∧
    (¬ invariantsHold states alphabet transitions start finals →
      construct states alphabet transitions start finals =
        .error (violations states alphabet transitions start finals) ∧
      violations states alphabet transitions start finals ≠ []) ∧
    (start ∉ states →
      ConstructionErrorKind.MissingStartState ∈
        violations states alphabet transitions start finals) ∧
    (¬ (∀ x ∈ finals, x ∈ states) →
      ConstructionErrorKind.FinalStateNotInStates ∈
        violations states alphabet transitions start finals) ∧
    (¬ (∀ kv ∈ transitions, kv.1.1 ∈ states) →
      ConstructionErrorKind.TransitionStateUnknown ∈
        violations states alphabet transitions start finals) ∧
    (¬ (∀ kv ∈ transitions, kv.1.2 ∈ alphabet) →
      ConstructionErrorKind.TransitionSymbolUnknown ∈
        violations states alphabet transitions start finals) ∧
    (¬ (∀ kv ∈ transitions, kv.2 ∈ states) →
      ConstructionErrorKind.TransitionTargetUnknown ∈
        violations states alphabet transitions start finals) ∧
    (states = [] →
      ConstructionErrorKind.EmptyStates ∈
        violations states alphabet transitions start finals) ∧
    (alphabet = [] →
      ConstructionErrorKind.EmptyAlphabet ∈
        violations states alphabet transitions start finals) := by
  refine ⟨construct_ok_iff states alphabet transitions start finals,
          ?_, ?_, ?_, ?_, ?_, ?_, ?_, ?_⟩
  · intro h
    have hv : violations states alphabet transitions start finals ≠ [] := by
      intro hnil
      exact h ((violations_eq_nil_iff states alphabet transitions start finals).mp hnil)
    exact ⟨by simp [construct, hv], hv⟩
  · intro h
    unfold violations
    simp [h, List.mem_append]
  · intro h
    unfold violations
    simp [h, List.mem_append]
  · intro h
    unfold violations
    simp only [List.mem_append]
    push_neg at h
    obtain ⟨⟨⟨x, y⟩, z⟩, hmem, hnot⟩ := h
    simp [show ¬ ∀ kv ∈ transitions, kv.1.1 ∈ states from by
      push_neg
      exact ⟨((x, y), z), hmem, hnot⟩]
    exact ⟨x, ⟨y, z, hmem⟩, hnot⟩
  · intro h
    unfold violations
    simp only [List.mem_append]
    push_neg at h
    obtain ⟨⟨⟨x, y⟩, z⟩, hmem, hnot⟩ := h
    simp [show ¬ ∀ kv ∈ transitions, kv.1.2 ∈ alphabet from by
      push_neg
      exact ⟨((x, y), z), hmem, hnot⟩]
    exact ⟨x, y, ⟨z, hmem⟩, hnot⟩
  · intro h
    unfold violations
    simp only [List.mem_append]
    push_neg at h
    obtain ⟨⟨⟨x, y⟩, z⟩, hmem, hnot⟩ := h
    simp [show ¬ ∀ kv ∈ transitions, kv.2 ∈ states from by
      push_neg
      exact ⟨((x, y), z), hmem, hnot⟩]
    exact ⟨x, y, z, hmem, hnot⟩
  · intro h
    unfold violations
    simp [h, List.mem_append]
  · intro h
    unfold violations
    simp [h, List.mem_append]

/-- C6: missingTransitions returns exactly the pairs of the cartesian
product of states and alphabet with no defined transition, as a
lexicographically sorted sequence, and completeness never affects
construction: success is equivalent to the invariants, and the incomplete
scenario C automaton both reports its missing pair and constructs
successfully. -/
theorem missingTransitions_spec :
    (∀ (d : DFA) (p : String × String),
        p ∈ missingTransitions d ↔
          p.1 ∈ d.states ∧ p.2 ∈ d.alphabet ∧
            transLookup d.transitions p.1 p.2 = none) ∧
    (∀ d : DFA, (missingTransitions d).Pairwise pairLe) ∧
    (∀ (states alphabet : List String)
        (transitions : List ((String × String) × String))
        (start : String) (finals : List String),
        (∃ d, construct states alphabet transitions start finals = .ok d) ↔
          invariantsHold states alphabet transitions start finals) ∧
    missingTransitions dfaC = [("q1", "1")] ∧
    construct dfaC.states dfaC.alphabet dfaC.transitions dfaC.start_state
      dfaC.final_states = .ok dfaC := by
  refine ⟨?_, ?_, construct_ok_iff, by decide, by decide⟩
  · intro d p
    rw [show missingTransitions d =
          List.insertionSort pairLe
            ((d.states.flatMap (fun s => d.alphabet.map (fun a => (s, a)))).filter
              (fun p => transLookup d.transitions p.1 p.2 = none)) from rfl,
        (List.perm_insertionSort pairLe _).mem_iff]
    simp only [List.mem_filter, List.mem_flatMap, List.mem_map, decide_eq_true_eq]
    constructor
    · rintro ⟨⟨s, hs, a, ha, hpa⟩, hnone⟩
      subst hpa
      exact ⟨hs, ha, hnone⟩
    · rintro ⟨hs, ha, hnone⟩
      exact ⟨⟨p.1, hs, p.2, ha, rfl⟩, hnone⟩
  · intro d
    exact List.sorted_insertionSort pairLe _

/-- C9: remove_state removes the state from the states list and deletes
exactly the transition entries whose key has it as from-state; entries with
a different from-state survive even when their target is the removed state,
so dangling targets can remain; alphabet, final states and start state are
untouched. The concrete instance removes q1 and keeps the entry
(q0, 1) mapping to the now-dangling target q1. -/
theorem remove_state_frame :
    (∀ (b : BuilderState) (s : String),
        (remove_state b s).states = b.states.erase s ∧
        (∀ kv, kv ∈ (remove_state b s).transitions ↔
          kv ∈ b.transitions ∧ kv.1.1 ≠ s) ∧
        (remove_state b s).alphabet = b.alphabet ∧
        (remove_state b s).final_states = b.final_states ∧
        (remove_state b s).start_state = b.start_state ∧
        (b.states.Nodup → s ∉ (remove_state b s).states)) ∧
    (remove_state
        { states := ["q0", "q1"], alphabet := ["0", "1"],
          transitions := [(("q0", "1"), "q1"), (("q1", "0"), "q0")],
          start_state := some "q0", final_states := ["q0"] } "q1").transitions =
      [(("q0", "1"), "q1")] := by
  refine ⟨?_, by decide⟩
  intro b s
  refine ⟨rfl, ?_, rfl, rfl, rfl, ?_⟩
  · intro kv
    simp [remove_state, List.mem_filter, bne_iff_ne]
  · intro hnd hmem
    rw [show (remove_state b s).states = b.states.erase s from rfl] at hmem
    exact ((List.Nodup.mem_erase_iff hnd).mp hmem).1 rfl

/-- C10: the builder lists states, alphabet and final_states never hold
duplicates: the dialog starts with empty lists, add_state, add_symbol and
add_final_state refuse elements already present, and every operation of the
dialog, loading an existing DFA included, preserves duplicate-freeness. -/
theorem builder_nodup_invariant :
    BuilderInv initBuilder ∧
    (∀ (b : BuilderState) (raw : String), raw.trim ∈ b.states →
      add_state b raw = b) ∧
    (∀ (b : BuilderState) (raw : String), raw.trim ∈ b.alphabet →
      add_symbol b raw = b) ∧
    (∀ (b : BuilderState) (s : String), s ∈ b.final_states →
      add_final_state b s = b) ∧
    (∀ (b : BuilderState) (raw : String), BuilderInv b →
      BuilderInv (add_state b raw)) ∧
    (∀ (b : BuilderState) (raw : String), BuilderInv b →
      BuilderInv (add_symbol b raw)) ∧
    (∀ (b : BuilderState) (s : String), BuilderInv b →
      BuilderInv (add_final_state b s)) ∧
    (∀ (b : BuilderState) (s : String), BuilderInv b →
      BuilderInv (remove_state b s)) ∧
    (∀ (b : BuilderState) (s : String), BuilderInv b →
      BuilderInv (remove_symbol b s)) ∧
    (∀ (b : BuilderState) (s : String), BuilderInv b →
      BuilderInv (remove_final_state b s)) ∧
    (∀ (b : BuilderState) (k : String × String), BuilderInv b →
      BuilderInv (remove_transition b k)) ∧
    (∀ (b : BuilderState) (f sy t : String) (ow : Bool), BuilderInv b →
      BuilderInv (add_transition b f sy t ow)) ∧
    (∀ (b : BuilderState) (s : String), BuilderInv b →
      BuilderInv (set_start_state b s)) ∧
    (∀ (b : BuilderState) (d : DFA), BuilderInv (load_existing_dfa b d)) := by
  have hsort : ∀ l : List String,
      (List.insertionSort (fun a c => a ≤ c) l.dedup).Nodup :=
    fun l => ((List.perm_insertionSort (fun a c => a ≤ c) l.dedup).nodup_iff).mpr
      (List.nodup_dedup l)
  refine ⟨⟨List.nodup_nil, List.nodup_nil, List.nodup_nil⟩,
          ?_, ?_, ?_, ?_, ?_, ?_, ?_, ?_, ?_, ?_, ?_, ?_, ?_⟩
  · intro b raw hmem
    by_cases he : raw.trim = "" <;> simp [add_state, he, hmem]
  · intro b raw hmem
    by_cases he : raw.trim = "" <;> simp [add_symbol, he, hmem]
  · intro b s hmem
    by_cases he : s = "" <;> simp [add_final_state, he, hmem]
  · intro b raw hinv
    obtain ⟨h1, h2, h3⟩ := hinv
    by_cases he : raw.trim = ""
    · simpa [add_state, he] using ⟨h1, h2, h3⟩
    · by_cases hm : raw.trim ∈ b.states
      · simpa [add_state, he, hm] using ⟨h1, h2, h3⟩
      · rw [show add_state b raw = { b with states := b.states ++ [raw.trim] } from by
          simp [add_state, he, hm]]
        exact ⟨by simp [List.nodup_append, h1, hm], h2, h3⟩
  · intro b raw hinv
    obtain ⟨h1, h2, h3⟩ := hinv
    by_cases he : raw.trim = ""
    · simpa [add_symbol, he] using ⟨h1, h2, h3⟩
    · by_cases hm : raw.trim ∈ b.alphabet
      · simpa [add_symbol, he, hm] using ⟨h1, h2, h3⟩
      · rw [show add_symbol b raw = { b with alphabet := b.alphabet ++ [raw.trim] } from by
          simp [add_symbol, he, hm]]
        exact ⟨h1, by simp [List.nodup_append, h2, hm], h3⟩
  · intro b s hinv
    obtain ⟨h1, h2, h3⟩ := hinv
    by_cases he : s = ""
    · simpa [add_final_state, he] using ⟨h1, h2, h3⟩
    · by_cases hm : s ∈ b.final_states
      · simpa [add_final_state, he, hm] using ⟨h1, h2, h3⟩
      · rw [show add_final_state b s = { b with final_states := b.final_states ++ [s] } from by
          simp [add_final_state, he, hm]]
        exact ⟨h1, h2, by simp [List.nodup_append, h3, hm]⟩
  · intro b s hinv
    obtain ⟨h1, h2, h3⟩ := hinv
    exact ⟨h1.erase s, h2, h3⟩
  · intro b s hinv
    obtain ⟨h1, h2, h3⟩ := hinv
    exact ⟨h1, h2.erase s, h3⟩
  · intro b s hinv
    obtain ⟨h1, h2, h3⟩ := hinv
    exact ⟨h1, h2, h3.erase s⟩
  · intro b k hinv
    obtain ⟨h1, h2, h3⟩ := hinv
    exact ⟨h1, h2, h3⟩
  · intro b f sy t ow hinv
    obtain ⟨h1, h2, h3⟩ := hinv
    unfold add_transition
    split
    · exact ⟨h1, h2, h3⟩
    · split
      · exact ⟨h1, h2, h3⟩
      · exact ⟨h1, h2, h3⟩
  · intro b s hinv
    obtain ⟨h1, h2, h3⟩ := hinv
    unfold set_start_state
    split
    · exact ⟨h1, h2, h3⟩
    · exact ⟨h1, h2, h3⟩
  · intro b d
    exact ⟨hsort d.states, hsort d.alphabet, hsort d.final_states⟩

end DFASim
